import Mathlib

/-!
Shallow embedding of the rattle template compiler (Markush2010/rattle).

The embedding follows the Python sources:
  * `rattle/utils/parser.py` — `ParserState`, `build_class`, `build_function`,
    `build_yield`, `build_yield_from`, `get_filter_func`, `get_lookup_name`,
    `split_tag_args_string`;
  * `rattle/parser.py` — the expression grammar (an rply `ParserGenerator`
    with an explicit precedence table) and its semantic actions, which build
    Python `ast` nodes;
  * `rattle/parser/structure.py` — the structure grammar productions
    (`doc`, `inner`, `var`, `if`, `for`, `block`, `extends`, `comment`) and
    their semantic actions;
  * the generated-code semantics: the compiler emits a Python class with one
    generator method per block; rendering executes the class's `root` method.

Machine-level Python values are modelled by the inductive `Value`; the
generated Python AST fragments by `Expr` (expressions) and `Stmt`
(statements); fallible steps return `Except`.
-/

namespace Rattle

instance exceptDecEq {ε α : Type} [DecidableEq ε] [DecidableEq α] :
    DecidableEq (Except ε α) := fun x y =>
  match x, y with
  | .ok a, .ok b =>
      if h : a = b then .isTrue (by rw [h])
      else .isFalse (by intro hc; cases hc; exact h rfl)
  | .error a, .error b =>
      if h : a = b then .isTrue (by rw [h])
      else .isFalse (by intro hc; cases hc; exact h rfl)
  | .ok _, .error _ => .isFalse (by intro hc; cases hc)
  | .error _, .ok _ => .isFalse (by intro hc; cases hc)

/-- Compile-time failures: `DuplicateBlockError` from
`ParserState.add_function`, `ValueError` from `split_tag_args_string` /
tag-argument validation, parse errors, and the modelling boundaries
(recursion limit in place of Python's stack limit for `extends` chains). -/
inductive CErr where
  | duplicateBlock (name : String)
  | valueError (msg : String)
  | syntaxError (msg : String)
  | ioError (file : String)
  | recursionLimit
  | nestedExtends
  deriving Repr, DecidableEq

/-- Render-time failures of the generated code: `KeyError` on a missing
context key or filter name, `AttributeError`, `IndexError`, `TypeError`
(non-iterable, non-callable, bad operand types), `ZeroDivisionError`, and
modelling boundaries (float arithmetic, object identity) plus fuel
exhaustion standing in for non-termination. -/
inductive RErr where
  | keyError (name : String)
  | attributeError (name : String)
  | indexError
  | typeError
  | zeroDivision
  | notCallable
  | noRootMethod
  | floatUnsupported
  | notModelled
  | outOfFuel
  deriving Repr, DecidableEq

/-- Runtime values of the render context: the Python values the template
core manipulates (ints, strings, booleans, lists, string-keyed dicts).
Functions are kept outside this universe; the filter table lives in the
render environment (see `REnv`). -/
inductive Value where
  | int (n : Int)
  | str (s : String)
  | bool (b : Bool)
  | list (xs : List Value)
  | dict (entries : List (String × Value))
  deriving Repr

mutual

/-- Python `==` on the modelled value universe (structural equality). -/
def Value.beq : Value → Value → Bool
  | .int a, .int b => a == b
  | .str a, .str b => a == b
  | .bool a, .bool b => a == b
  | .list a, .list b => Value.beqList a b
  | .dict a, .dict b => Value.beqEntries a b
  | _, _ => false

def Value.beqList : List Value → List Value → Bool
  | [], [] => true
  | a :: as, b :: bs => Value.beq a b && Value.beqList as bs
  | _, _ => false

def Value.beqEntries : List (String × Value) → List (String × Value) → Bool
  | [], [] => true
  | (k, v) :: as, (k', v') :: bs => k == k' && Value.beq v v' && Value.beqEntries as bs
  | _, _ => false

end

/-- The caller-supplied context: a Python dict from names to values,
modelled as an insertion-ordered association list. -/
abbrev Ctx := List (String × Value)

/-- Python dict item assignment `d[k] = v`: update an existing key in
place, otherwise append the new binding. -/
def ctxSet : Ctx → String → Value → Ctx
  | [], k, v => [(k, v)]
  | (k', v') :: rest, k, v =>
      if k' = k then (k, v) :: rest else (k', v') :: ctxSet rest k v

/-! ## Tag argument splitter (`rattle/utils/parser.py`, `split_tag_args_string`) -/

/-- The loop state of `split_tag_args_string`: emitted arguments, the
characters of the argument being accumulated, the escape/quote flags and
the open-parenthesis count. -/
structure SplitSt where
  args : List String
  cur : List Char
  escaped : Bool
  quote : Bool
  squote : Bool
  parens : Nat
  deriving Repr, DecidableEq

def SplitSt.init : SplitSt :=
  { args := [], cur := [], escaped := false, quote := false,
    squote := false, parens := 0 }

/-- The quote-stripping step applied when an argument is emitted:
`current[1:-1]` when the first and last characters are the same quote. -/
def stripQuotes : List Char → List Char
  | [] => []
  | c :: rest =>
      let lc := (c :: rest).getLast (List.cons_ne_nil c rest)
      if c = lc ∧ (c = '"' ∨ c = '\'') then ((c :: rest).drop 1).dropLast
      else c :: rest

/-- Emit the accumulated argument (if non-empty) with quotes stripped. -/
def SplitSt.flush (st : SplitSt) : SplitSt :=
  if st.cur = [] then st
  else { st with args := st.args ++ [String.mk (stripQuotes st.cur)], cur := [] }

/-- One iteration of the character loop of `split_tag_args_string`. -/
def splitStep (s : String) (st : SplitSt) (c : Char) : Except String SplitSt :=
  if st.escaped then
    .ok { st with escaped := false, cur := st.cur ++ ['\\', c] }
  else if c = '"' then
    let st := if !st.squote then { st with quote := !st.quote } else st
    .ok { st with cur := st.cur ++ [c] }
  else if c = '\'' then
    let st := if !st.quote then { st with squote := !st.squote } else st
    .ok { st with cur := st.cur ++ [c] }
  else if c = '(' then
    let st := if !st.quote && !st.squote then { st with parens := st.parens + 1 } else st
    .ok { st with cur := st.cur ++ [c] }
  else if c = ')' then
    if !st.quote && !st.squote then
      if st.parens = 0 then
        .error ("Closing un-open parenthesis in `" ++ s ++ "`")
      else
        .ok { st with parens := st.parens - 1, cur := st.cur ++ [c] }
    else
      .ok { st with cur := st.cur ++ [c] }
  else if c = '\\' then
    .ok { st with escaped := true }
  else if c = ' ' then
    if !st.quote && !st.squote && st.parens = 0 then
      .ok st.flush
    else
      .ok { st with cur := st.cur ++ [c] }
  else
    .ok { st with cur := st.cur ++ [c] }

/-- Split a tag's raw argument string into whitespace-separated arguments,
honouring quotes, parentheses and backslash escapes; mirrors
`split_tag_args_string`, with `ValueError` as `Except.error`. -/
def split_tag_args_string (s : String) : Except String (List String) := do
  let st ← s.data.foldlM (splitStep s) SplitSt.init
  if !st.escaped && !st.quote && !st.squote && st.parens = 0 then
    .ok st.flush.args
  else if st.quote then
    .error ("Un-closed double quote in `" ++ s ++ "`")
  else if st.squote then
    .error ("Un-closed single quote in `" ++ s ++ "`")
  else if st.parens > 0 then
    .error ("Un-closed parenthesis (" ++ toString st.parens ++ " still open) in `" ++ s ++ "`")
  else
    .error ("Un-used escaping in `" ++ s ++ "`")

example : split_tag_args_string "x in \"a b\"" = .ok ["x", "in", "a b"] := by decide
example : split_tag_args_string "a\\ b" = .ok ["a\\ b"] := by decide
example : split_tag_args_string "f(a, b)" = .ok ["f(a, b)"] := by decide

/-! ## Expression tokens and lexer

The expression grammar of `rattle/parser.py` consumes tokens produced by
`rattle/lexer.py`, which is not among the available sources.  The token
kinds are those named in the grammar's rules and precedence table. -/

/-- Expression-mode tokens (the terminals of the grammar in
`rattle/parser.py`).  `NOTIN`/`ISNOT` are produced by combined lexer rules
in the missing lexer module and are not needed by any claim, so they are
not modelled. -/
inductive ETok where
  | name (s : String)
  | number (lit : String)
  | strLit (lit : String)
  | plus | minus | mul | div | mod
  | eq | neq | lt | lte | gt | gte
  | inTok | isTok | andTok | orTok
  | dot | lsqb | rsqb | lparen | rparen | comma | assign | pipe | colon
  deriving Repr, DecidableEq

/-- Modelled from the spec: the expression-mode sub-lexer (`rattle/lexer.py`
is not under `src/`): standard numeric/identifier/operator rules, string
literals delimited by one quote style with the content taken verbatim (no
escape processing), whitespace ignored (`lg.ignore(r"\s+")` appears in
`rattle/parser.py`).  Number lexemes are digit runs with an optional
fractional part; exponent forms and the combined `not in` / `is not`
rules are not needed by any claim and are not modelled. -/
def exprLexAux : Nat → List Char → Except String (List ETok)
  | 0, _ => .error "lexer fuel exhausted"
  | _, [] => .ok []
  | fuel + 1, c :: cs =>
    if c.isWhitespace then exprLexAux fuel cs
    else if c.isDigit then
      let intPart := (c :: cs).takeWhile Char.isDigit
      let rest1 := (c :: cs).dropWhile Char.isDigit
      match rest1 with
      | '.' :: r2 =>
          let frac := r2.takeWhile Char.isDigit
          let rest2 := r2.dropWhile Char.isDigit
          (exprLexAux fuel rest2).map
            (fun ts => .number (String.mk (intPart ++ '.' :: frac)) :: ts)
      | _ =>
          (exprLexAux fuel rest1).map (fun ts => .number (String.mk intPart) :: ts)
    else if c.isAlpha || c = '_' then
      let word := (c :: cs).takeWhile (fun d => d.isAlphanum || d = '_')
      let rest1 := (c :: cs).dropWhile (fun d => d.isAlphanum || d = '_')
      let tok :=
        if word = "in".data then ETok.inTok
        else if word = "is".data then ETok.isTok
        else if word = "and".data then ETok.andTok
        else if word = "or".data then ETok.orTok
        else ETok.name (String.mk word)
      (exprLexAux fuel rest1).map (fun ts => tok :: ts)
    else if c = '"' || c = '\'' then
      let inner := cs.takeWhile (fun d => d ≠ c)
      match cs.dropWhile (fun d => d ≠ c) with
      | _ :: rest1 =>
          (exprLexAux fuel rest1).map
            (fun ts => .strLit (String.mk (c :: inner ++ [c])) :: ts)
      | [] => .error "unterminated string literal"
    else
      match c :: cs with
      | '=' :: '=' :: rest => (exprLexAux fuel rest).map (.eq :: ·)
      | '!' :: '=' :: rest => (exprLexAux fuel rest).map (.neq :: ·)
      | '<' :: '=' :: rest => (exprLexAux fuel rest).map (.lte :: ·)
      | '>' :: '=' :: rest => (exprLexAux fuel rest).map (.gte :: ·)
      | '<' :: rest => (exprLexAux fuel rest).map (.lt :: ·)
      | '>' :: rest => (exprLexAux fuel rest).map (.gt :: ·)
      | '+' :: rest => (exprLexAux fuel rest).map (.plus :: ·)
      | '-' :: rest => (exprLexAux fuel rest).map (.minus :: ·)
      | '*' :: rest => (exprLexAux fuel rest).map (.mul :: ·)
      | '/' :: rest => (exprLexAux fuel rest).map (.div :: ·)
      | '%' :: rest => (exprLexAux fuel rest).map (.mod :: ·)
      | '.' :: rest => (exprLexAux fuel rest).map (.dot :: ·)
      | '[' :: rest => (exprLexAux fuel rest).map (.lsqb :: ·)
      | ']' :: rest => (exprLexAux fuel rest).map (.rsqb :: ·)
      | '(' :: rest => (exprLexAux fuel rest).map (.lparen :: ·)
      | ')' :: rest => (exprLexAux fuel rest).map (.rparen :: ·)
      | ',' :: rest => (exprLexAux fuel rest).map (.comma :: ·)
      | '=' :: rest => (exprLexAux fuel rest).map (.assign :: ·)
      | '|' :: rest => (exprLexAux fuel rest).map (.pipe :: ·)
      | ':' :: rest => (exprLexAux fuel rest).map (.colon :: ·)
      | _ => .error "unexpected character"

/-- Lex one expression string. -/
def exprLex (s : String) : Except String (List ETok) :=
  exprLexAux (s.length + 1) s.data

/-! ## Expression AST (the Python `ast` nodes the semantic actions build) -/

/-- Binary arithmetic operators (`_binop_mapping` in `rattle/parser.py`). -/
inductive BOp where
  | add | sub | mult | div | mod
  deriving Repr, DecidableEq

/-- Comparison operators (`_cmpop_mapping` in `rattle/parser.py`). -/
inductive COp where
  | eq | notEq | lt | lte | gt | gte | inOp | isOp
  deriving Repr, DecidableEq

/-- The Python expression AST the semantic actions construct.
`contextLookup name` is `name_NAME`'s `context[name]` subscript;
`filterRef names` is `get_filter_func(get_lookup_name(names))`, i.e.
`filters['.'.join(names)]`; `escape e` is the `auto_escape(e)` call the
`var` production wraps around every emitted expression. -/
inductive Expr where
  | num (n : Int)
  | numFloat (lit : String)
  | str (s : String)
  | contextLookup (name : String)
  | attribute (base : Expr) (attr : String)
  | subscript (base : Expr) (index : Expr)
  | binop (op : BOp) (left right : Expr)
  | compare (op : COp) (left right : Expr)
  | filterRef (names : List String)
  | call (func : Expr) (args : List Expr) (kwargs : List (String × Expr))
  | escape (arg : Expr)
  deriving Repr

/-- `build_call` from `rattle/utils/parser.py`. -/
def build_call (func : Expr) (args : List Expr) (kwargs : List (String × Expr)) : Expr :=
  .call func args kwargs

/-- `expr_filter` from `rattle/parser.py`: the filtered expression is
prepended as the first positional argument of the filter call. -/
def expr_filter (arg : Expr) (flt : Expr × List Expr × List (String × Expr)) : Expr :=
  build_call flt.1 (arg :: flt.2.1) flt.2.2

/-- `filter_colon_arg` from `rattle/parser.py`: `| name : literal` yields
the filter function plus the literal as its sole explicit argument. -/
def filter_colon_arg (names : List String) (lit : Expr) :
    Expr × List Expr × List (String × Expr) :=
  (.filterRef names, [lit], [])

/-- Decimal digit accumulation for `int(...)`. -/
def pyIntAux : Nat → List Char → Option Nat
  | acc, [] => some acc
  | acc, c :: cs => if c.isDigit then pyIntAux (acc * 10 + (c.toNat - 48)) cs else none

/-- Python `int(lit)` on decimal lexemes. -/
def pyInt (lit : String) : Option Int :=
  match lit.data with
  | [] => none
  | '-' :: [] => none
  | '-' :: ds => (pyIntAux 0 ds).map (fun n => -(n : Int))
  | ds => (pyIntAux 0 ds).map (fun n => (n : Int))

/-- `number_NUMBER` from `rattle/parser.py`: a `.`, `e` or `E` in the
lexeme selects a float literal, otherwise a decimal integer. -/
def number_NUMBER (lit : String) : Except String Expr :=
  if lit.data.contains '.' || lit.data.contains 'e' || lit.data.contains 'E' then
    .ok (.numFloat lit)
  else
    match pyInt lit with
    | some n => .ok (.num n)
    | none => .error "invalid NUMBER lexeme"

/-- `string_STRING` from `rattle/parser.py`: strip the surrounding quotes
(`getstr()[1:-1]`). -/
def string_STRING (lit : String) : Expr :=
  .str (String.mk (lit.data.drop 1).dropLast)

/-! ## Expression parser

`rattle/parser.py` drives an rply LALR parser whose ambiguities are
resolved by the declared precedence table (`COMMA` 1 < `ASSIGN` 2 <
`PIPE` 3 < `AND`/`OR` 4 < comparisons 5 < `PLUS`/`MINUS` 6 <
`MUL`/`DIV`/`MOD` 7 < `LSQB` 8 < `DOT` 9 < `LPAREN` 10, all
left-associative except `ASSIGN`).  The embedding is a precedence-climbing
parser over the same productions with those binding powers; `AND`/`OR`
have no production in the source, so they terminate an expression just as
they would fail the LALR table. -/

/-- The `lookup_name : NAME | lookup_name DOT NAME` production, consumed
greedily (the LALR table shifts `DOT` over reducing the filter, since the
`filter` rules' precedence `PIPE` is lower than `DOT`). -/
def parseLookupNames : List ETok → List String → List String × List ETok
  | .dot :: .name s :: rest, acc => parseLookupNames rest (acc ++ [s])
  | ts, acc => (acc, ts)

/-- The `literal : name | number | string` production used after a filter
colon (`name_NAME` makes a bare name a context lookup). -/
def parseLiteralTok (ts : List ETok) : Except String (Expr × List ETok) :=
  match ts with
  | .name s :: rest => .ok (.contextLookup s, rest)
  | .number lit :: rest => do
      let e ← number_NUMBER lit
      .ok (e, rest)
  | .strLit lit :: rest => .ok (string_STRING lit, rest)
  | _ => .error "Unexpected token: expected literal"

mutual

def parseExprBp (fuel : Nat) (minBp : Nat) (ts : List ETok) :
    Except String (Expr × List ETok) :=
  match fuel with
  | 0 => .error "parser fuel exhausted"
  | fuel + 1 => do
    let (lhs, ts) ← parseAtom fuel ts
    parseLoop fuel minBp lhs ts

def parseAtom (fuel : Nat) (ts : List ETok) : Except String (Expr × List ETok) :=
  match fuel with
  | 0 => .error "parser fuel exhausted"
  | fuel + 1 =>
    match ts with
    | .name s :: rest => .ok (.contextLookup s, rest)
    | .number lit :: rest => do
        let e ← number_NUMBER lit
        .ok (e, rest)
    | .strLit lit :: rest => .ok (string_STRING lit, rest)
    | .lparen :: rest => do
        let (e, rest) ← parseExprBp fuel 0 rest
        match rest with
        | .rparen :: rest => .ok (e, rest)
        | _ => .error "Unexpected token: expected RPAREN"
    | _ => .error "Unexpected token"

def parseLoop (fuel : Nat) (minBp : Nat) (lhs : Expr) (ts : List ETok) :
    Except String (Expr × List ETok) :=
  match fuel with
  | 0 => .error "parser fuel exhausted"
  | fuel + 1 =>
    match ts with
    | .plus :: rest =>
        if 6 ≥ minBp then do
          let (rhs, ts') ← parseExprBp fuel 7 rest
          parseLoop fuel minBp (.binop .add lhs rhs) ts'
        else .ok (lhs, ts)
    | .minus :: rest =>
        if 6 ≥ minBp then do
          let (rhs, ts') ← parseExprBp fuel 7 rest
          parseLoop fuel minBp (.binop .sub lhs rhs) ts'
        else .ok (lhs, ts)
    | .mul :: rest =>
        if 7 ≥ minBp then do
          let (rhs, ts') ← parseExprBp fuel 8 rest
          parseLoop fuel minBp (.binop .mult lhs rhs) ts'
        else .ok (lhs, ts)
    | .div :: rest =>
        if 7 ≥ minBp then do
          let (rhs, ts') ← parseExprBp fuel 8 rest
          parseLoop fuel minBp (.binop .div lhs rhs) ts'
        else .ok (lhs, ts)
    | .mod :: rest =>
        if 7 ≥ minBp then do
          let (rhs, ts') ← parseExprBp fuel 8 rest
          parseLoop fuel minBp (.binop .mod lhs rhs) ts'
        else .ok (lhs, ts)
    | .eq :: rest =>
        if 5 ≥ minBp then do
          let (rhs, ts') ← parseExprBp fuel 6 rest
          parseLoop fuel minBp (.compare .eq lhs rhs) ts'
        else .ok (lhs, ts)
    | .neq :: rest =>
        if 5 ≥ minBp then do
          let (rhs, ts') ← parseExprBp fuel 6 rest
          parseLoop fuel minBp (.compare .notEq lhs rhs) ts'
        else .ok (lhs, ts)
    | .lt :: rest =>
        if 5 ≥ minBp then do
          let (rhs, ts') ← parseExprBp fuel 6 rest
          parseLoop fuel minBp (.compare .lt lhs rhs) ts'
        else .ok (lhs, ts)
    | .lte :: rest =>
        if 5 ≥ minBp then do
          let (rhs, ts') ← parseExprBp fuel 6 rest
          parseLoop fuel minBp (.compare .lte lhs rhs) ts'
        else .ok (lhs, ts)
    | .gt :: rest =>
        if 5 ≥ minBp then do
          let (rhs, ts') ← parseExprBp fuel 6 rest
          parseLoop fuel minBp (.compare .gt lhs rhs) ts'
        else .ok (lhs, ts)
    | .gte :: rest =>
        if 5 ≥ minBp then do
          let (rhs, ts') ← parseExprBp fuel 6 rest
          parseLoop fuel minBp (.compare .gte lhs rhs) ts'
        else .ok (lhs, ts)
    | .inTok :: rest =>
        if 5 ≥ minBp then do
          let (rhs, ts') ← parseExprBp fuel 6 rest
          parseLoop fuel minBp (.compare .inOp lhs rhs) ts'
        else .ok (lhs, ts)
    | .isTok :: rest =>
        if 5 ≥ minBp then do
          let (rhs, ts') ← parseExprBp fuel 6 rest
          parseLoop fuel minBp (.compare .isOp lhs rhs) ts'
        else .ok (lhs, ts)
    | .pipe :: rest =>
        if 3 ≥ minBp then do
          let (flt, ts') ← parseFilter fuel rest
          parseLoop fuel minBp (expr_filter lhs flt) ts'
        else .ok (lhs, ts)
    | .lsqb :: rest =>
        if 8 ≥ minBp then do
          let (idx, ts') ← parseExprBp fuel 0 rest
          match ts' with
          | .rsqb :: ts'' => parseLoop fuel minBp (.subscript lhs idx) ts''
          | _ => .error "Unexpected token: expected RSQB"
        else .ok (lhs, ts)
    | .dot :: rest =>
        if 9 ≥ minBp then
          match rest with
          | .name a :: rest' => parseLoop fuel minBp (.attribute lhs a) rest'
          | _ => .error "Unexpected token: expected NAME after DOT"
        else .ok (lhs, ts)
    | .lparen :: rest =>
        if 10 ≥ minBp then do
          let (args, kwargs, ts') ← parseCallArgs fuel rest
          parseLoop fuel minBp (build_call lhs args kwargs) ts'
        else .ok (lhs, ts)
    | _ => .ok (lhs, ts)

def parseFilter (fuel : Nat) (ts : List ETok) :
    Except String ((Expr × List Expr × List (String × Expr)) × List ETok) :=
  match fuel with
  | 0 => .error "parser fuel exhausted"
  | fuel + 1 =>
    match ts with
    | .name s :: rest =>
      let (names, rest) := parseLookupNames rest [s]
      match rest with
      | .colon :: rest2 => do
          let (lit, rest3) ← parseLiteralTok rest2
          .ok (filter_colon_arg names lit, rest3)
      | .lparen :: rest2 => do
          let (args, kwargs, rest3) ← parseCallArgs fuel rest2
          .ok ((.filterRef names, args, kwargs), rest3)
      | _ => .ok ((.filterRef names, [], []), rest)
    | _ => .error "Unexpected token: expected NAME after PIPE"

def parseCallArgs (fuel : Nat) (ts : List ETok) :
    Except String (List Expr × List (String × Expr) × List ETok) :=
  match fuel with
  | 0 => .error "parser fuel exhausted"
  | fuel + 1 =>
    match ts with
    | .rparen :: rest => .ok ([], [], rest)
    | _ => parseArgItems fuel [] [] ts

def parseArgItems (fuel : Nat) (args : List Expr) (kwargs : List (String × Expr))
    (ts : List ETok) : Except String (List Expr × List (String × Expr) × List ETok) :=
  match fuel with
  | 0 => .error "parser fuel exhausted"
  | fuel + 1 => do
    let (args', kwargs', rest) ←
      match ts with
      | .name n :: .assign :: rest => do
          let (e, rest') ← parseExprBp fuel 0 rest
          pure (args, kwargs ++ [(n, e)], rest')
      | _ =>
          if kwargs.isEmpty then do
            let (e, rest') ← parseExprBp fuel 0 ts
            pure (args ++ [e], kwargs, rest')
          else
            .error "Unexpected token: positional argument after keyword argument"
    match rest with
    | .comma :: rest' => parseArgItems fuel args' kwargs' rest'
    | .rparen :: rest' => .ok (args', kwargs', rest')
    | _ => .error "Unexpected token: expected COMMA or RPAREN"

end

/-- `fp.parse`: parse exactly one expression, requiring the whole token
stream to be consumed. -/
def fp_parse (ts : List ETok) : Except String Expr := do
  let (e, rest) ← parseExprBp (4 * ts.length + 8) 0 ts
  match rest with
  | [] => .ok e
  | _ => .error "Unexpected token"

/-- Lex and parse one expression string (`fp.parse(fl.lex(s))`). -/
def parse_expr_string (s : String) : Except String Expr := do
  let ts ← exprLex s
  fp_parse ts

/-! ## Generated statements, classes and the rendering evaluator

The structure parser's semantic actions emit Python statements into
generator methods of a generated class (`build_function`,
`build_yield`, `build_yield_from` in `rattle/utils/parser.py`).  `Stmt`
is that statement language; `Klass` a generated class; rendering executes
the resolved `root` method with Python generator semantics. -/

/-- Statements of the generated generator methods.  `forS target …` is the
generated `for context[target] in iter:` loop — its target is an
`ast.Subscript` of `context` with `ast.Store` context, i.e. an assignment
into the render context dict on each iteration. -/
inductive Stmt where
  | yieldE (e : Expr)
  | yieldFrom (name : String)
  | ifS (test : Expr) (body orelse : List Stmt)
  | forS (target : String) (iter : Expr) (body orelse : List Stmt)
  | passS
  deriving Repr

/-- The body of one generated method. -/
abbrev Func := List Stmt

/-- One generated class: `Template{level or ''}`, an optional base class
`Template{level+1}` (set by `extends`), and its methods in insertion
order. -/
structure Klass where
  level : Nat
  base : Option Nat
  funcs : List (String × Func)
  deriving Repr

/-- A filter: positional arguments and keyword arguments to a result. -/
abbrev FilterFn := List Value → List (String × Value) → Except RErr Value

/-- The render environment: the generated classes (the exec namespace),
the dynamic `self` used by `yield from self.<name>(context)` delegation,
the `filters` table and the `auto_escape` collaborator. -/
structure REnv where
  classes : List Klass
  selfK : Klass
  filters : List (String × FilterFn)
  autoEscape : Value → String

/-- Python truthiness of the modelled values. -/
def truthy : Value → Bool
  | .int n => n != 0
  | .str s => s != ""
  | .bool b => b
  | .list xs => !xs.isEmpty
  | .dict es => !es.isEmpty

/-- Python binary arithmetic on the modelled values.  True division
produces a float and `%` on strings is formatting; both are outside the
embedding and are reported as such. -/
def evalBinop : BOp → Value → Value → Except RErr Value
  | .add, .int a, .int b => .ok (.int (a + b))
  | .add, .str a, .str b => .ok (.str (a ++ b))
  | .add, .list a, .list b => .ok (.list (a ++ b))
  | .sub, .int a, .int b => .ok (.int (a - b))
  | .mult, .int a, .int b => .ok (.int (a * b))
  | .div, .int _, .int _ => .error .floatUnsupported
  | .mod, .int a, .int b =>
      if b = 0 then .error .zeroDivision else .ok (.int (Int.fmod a b))
  | _, _, _ => .error .typeError

/-- Python comparisons on the modelled values (`is` is object identity,
outside the embedding). -/
def evalCompare : COp → Value → Value → Except RErr Value
  | .eq, a, b => .ok (.bool (Value.beq a b))
  | .notEq, a, b => .ok (.bool (!Value.beq a b))
  | .lt, .int a, .int b => .ok (.bool (decide (a < b)))
  | .lt, .str a, .str b => .ok (.bool (decide (a < b)))
  | .lte, .int a, .int b => .ok (.bool (decide (a ≤ b)))
  | .lte, .str a, .str b => .ok (.bool (decide (a ≤ b)))
  | .gt, .int a, .int b => .ok (.bool (decide (b < a)))
  | .gt, .str a, .str b => .ok (.bool (decide (b < a)))
  | .gte, .int a, .int b => .ok (.bool (decide (b ≤ a)))
  | .gte, .str a, .str b => .ok (.bool (decide (b ≤ a)))
  | .inOp, a, .list xs => .ok (.bool (xs.any (Value.beq a)))
  | .inOp, .str a, .str b => .ok (.bool (decide (a.data <:+: b.data)))
  | .inOp, .str a, .dict es => .ok (.bool (es.any (fun kv => kv.1 == a)))
  | .isOp, _, _ => .error .notModelled
  | _, _, _ => .error .typeError

/-- Python subscription `base[index]` on the modelled values (negative
list indices wrap as in Python). -/
def evalSubscript : Value → Value → Except RErr Value
  | .list xs, .int i =>
      let j := if i < 0 then i + xs.length else i
      if j < 0 then .error .indexError
      else
        match xs.get? j.toNat with
        | some v => .ok v
        | none => .error .indexError
  | .str s, .int i =>
      let j := if i < 0 then i + s.length else i
      if j < 0 then .error .indexError
      else
        match s.data.get? j.toNat with
        | some c => .ok (.str (String.singleton c))
        | none => .error .indexError
  | .dict es, .str k =>
      match es.lookup k with
      | some v => .ok v
      | none => .error (.keyError k)
  | _, _ => .error .typeError

/-- Python iteration over the modelled values: lists yield their elements,
strings their characters, dicts their keys. -/
def iterElems : Value → Except RErr (List Value)
  | .list xs => .ok xs
  | .str s => .ok (s.data.map (fun c => .str (String.singleton c)))
  | .dict es => .ok (es.map (fun kv => Value.str kv.1))
  | _ => .error .typeError

mutual

/-- Evaluate one generated Python expression against the context.
`contextLookup` is `context[name]` (KeyError when absent); `filterRef` is
only legal as a call's callee — filter functions live in the render
environment, not in the value universe; attribute access on the modelled
values has no template-relevant attributes and surfaces as
`AttributeError` (after evaluating the base, as Python would). -/
def evalExpr (env : REnv) (ctx : Ctx) : Expr → Except RErr Value
  | .num n => .ok (.int n)
  | .numFloat _ => .error .floatUnsupported
  | .str s => .ok (.str s)
  | .contextLookup name =>
      match ctx.lookup name with
      | some v => .ok v
      | none => .error (.keyError name)
  | .attribute base attr => do
      let _ ← evalExpr env ctx base
      .error (.attributeError attr)
  | .subscript base idx => do
      let b ← evalExpr env ctx base
      let i ← evalExpr env ctx idx
      evalSubscript b i
  | .binop op l r => do
      let lv ← evalExpr env ctx l
      let rv ← evalExpr env ctx r
      evalBinop op lv rv
  | .compare op l r => do
      let lv ← evalExpr env ctx l
      let rv ← evalExpr env ctx r
      evalCompare op lv rv
  | .filterRef _ => .error .notModelled
  | .call f args kwargs =>
      match f with
      | .filterRef names =>
          let nm := String.intercalate "." names
          match env.filters.lookup nm with
          | none => .error (.keyError nm)
          | some F => do
              let vs ← evalExprList env ctx args
              let kvs ← evalKwargList env ctx kwargs
              F vs kvs
      | _ => do
          let _ ← evalExpr env ctx f
          .error .notCallable
  | .escape e => do
      let v ← evalExpr env ctx e
      .ok (.str (env.autoEscape v))

def evalExprList (env : REnv) (ctx : Ctx) : List Expr → Except RErr (List Value)
  | [] => .ok []
  | e :: es => do
      let v ← evalExpr env ctx e
      let vs ← evalExprList env ctx es
      .ok (v :: vs)

def evalKwargList (env : REnv) (ctx : Ctx) :
    List (String × Expr) → Except RErr (List (String × Value))
  | [] => .ok []
  | (k, e) :: es => do
      let v ← evalExpr env ctx e
      let vs ← evalKwargList env ctx es
      .ok ((k, v) :: vs)

end

/-- Look up a generated class by its level (`Template{n}` in the exec
namespace). -/
def findKlass (classes : List Klass) (lvl : Nat) : Option Klass :=
  classes.find? (fun k => k.level == lvl)

/-- Python attribute resolution of `self.<name>` along the single
inheritance chain: the dynamic class first, then its base chain. -/
def resolveMethod (classes : List Klass) : Nat → Klass → String → Option Func
  | 0, _, _ => none
  | fuel + 1, k, name =>
      match k.funcs.lookup name with
      | some f => some f
      | none =>
          match k.base with
          | none => none
          | some b =>
              match findKlass classes b with
              | none => none
              | some pk => resolveMethod classes fuel pk name

mutual

/-- Execute one generated statement: Python generator semantics over the
mutable context dict, collecting yielded fragments.  A yielded non-string
would make the caller's join fail and is reported as a type error.  Note
the `for` statement: the generated loop target is `context[target]`, so
each iteration assigns into the context, and the `orelse` suite runs
whenever the loop finishes without `break` — the generated bodies contain
no `break`, so it runs after every loop, empty or not. -/
def execStmt (env : REnv) : Nat → Ctx → Stmt → Except RErr (Ctx × List String)
  | 0, _, _ => .error .outOfFuel
  | fuel + 1, ctx, stmt =>
    match stmt with
    | .yieldE e => do
        let v ← evalExpr env ctx e
        match v with
        | .str s => .ok (ctx, [s])
        | _ => .error .typeError
    | .yieldFrom name =>
        match resolveMethod env.classes env.classes.length env.selfK name with
        | none => .error (.attributeError name)
        | some f => execStmts env fuel ctx f
    | .ifS test body orelse => do
        let v ← evalExpr env ctx test
        if truthy v then execStmts env fuel ctx body
        else execStmts env fuel ctx orelse
    | .forS target iter body orelse => do
        let v ← evalExpr env ctx iter
        let elems ← iterElems v
        let (ctx1, frags1) ← execForLoop env fuel ctx target body elems
        let (ctx2, frags2) ← execStmts env fuel ctx1 orelse
        .ok (ctx2, frags1 ++ frags2)
    | .passS => .ok (ctx, [])

def execForLoop (env : REnv) :
    Nat → Ctx → String → List Stmt → List Value → Except RErr (Ctx × List String)
  | 0, _, _, _, _ => .error .outOfFuel
  | _ + 1, ctx, _, _, [] => .ok (ctx, [])
  | fuel + 1, ctx, target, body, v :: vs => do
      let ctx1 := ctxSet ctx target v
      let (ctx2, frags) ← execStmts env fuel ctx1 body
      let (ctx3, frags') ← execForLoop env fuel ctx2 target body vs
      .ok (ctx3, frags ++ frags')

def execStmts (env : REnv) : Nat → Ctx → List Stmt → Except RErr (Ctx × List String)
  | 0, _, _ => .error .outOfFuel
  | _ + 1, ctx, [] => .ok (ctx, [])
  | fuel + 1, ctx, s :: ss => do
      let (ctx1, frags) ← execStmt env fuel ctx s
      let (ctx2, frags') ← execStmts env fuel ctx1 ss
      .ok (ctx2, frags ++ frags')

end

/-- Render a compiled module: instantiate the last generated class and run
its (possibly inherited) `root` method against the context, returning the
final context and the yielded fragments. -/
def render (fuel : Nat) (classes : List Klass) (filters : List (String × FilterFn))
    (autoEscape : Value → String) (ctx : Ctx) : Except RErr (Ctx × List String) :=
  match classes.getLast? with
  | none => .error .noRootMethod
  | some child =>
      let env : REnv :=
        { classes := classes, selfK := child, filters := filters,
          autoEscape := autoEscape }
      match resolveMethod classes classes.length child "root" with
      | none => .error .noRootMethod
      | some f => execStmts env fuel ctx f

/-- The fragments of a render joined to one output string. -/
def renderString (fuel : Nat) (classes : List Klass)
    (filters : List (String × FilterFn)) (autoEscape : Value → String)
    (ctx : Ctx) : Except RErr String :=
  (render fuel classes filters autoEscape ctx).map (fun r => String.join r.2)

/-! ## Structure parser (`rattle/parser/structure.py`)

The structure grammar's parse trees, one constructor per tagged
production; tag payloads are kept as the raw `CONTENT` strings the
productions receive, exactly as the semantic actions do (`for`, `block`
and `extends` split them with `split_tag_args_string`; `var`, `if` and
`for` re-lex and re-parse expression payloads with
`fp.parse(fl.lex(...))`). -/
inductive Node where
  | content (s : String)
  | var (exprSrc : String)
  | ifTag (cond : String) (body : List Node) (orelse : Option (List Node))
  | forTag (args : String) (body : List Node) (orelse : Option (List Node))
  | blockTag (args : String) (body : List Node)
  | extendsTag (args : String)
  | comment (s : String)
  deriving Repr

/-- `ParserState` from `rattle/utils/parser.py`: inheritance `level`, the
base class (`none` is `object`, `some n` is `Template{n}`), the block
name to function mapping in insertion order, and the module body the
`extends` action replaces with the parent's classes. -/
structure PState where
  level : Nat
  baseLevel : Option Nat
  functions : List (String × Func)
  moduleBody : List Klass
  deriving Repr

/-- `ParserState.add_function`: registering a block whose name already
exists raises `DuplicateBlockError`. -/
def PState.add_function (st : PState) (name : String) (func : Func) :
    Except CErr PState :=
  if (st.functions.lookup name).isSome then .error (.duplicateBlock name)
  else .ok { st with functions := st.functions ++ [(name, func)] }

/-- `build_yield`: `yield value`. -/
def build_yield (e : Expr) : Stmt := .yieldE e

/-- `build_yield_from`: `yield from self.<name>(context)`. -/
def build_yield_from (name : String) : Stmt := .yieldFrom name

/-- `build_function`: every generated method starts by yielding one empty
string fragment, then its body. -/
def build_function (body : List Stmt) : Func := build_yield (.str "") :: body

/-- `build_class`: the initial `ParserState` contents after the class is
created — the `root` function is registered at once
(`state.add_function('root', root_func)`); its body is accumulated by
`append_to_block` and assembled at finalize (the placeholder body here is
replaced in `finalizeModule`). -/
def build_class (level : Nat) : PState :=
  { level := level, baseLevel := none, functions := [("root", [])],
    moduleBody := [] }

/-- Lift the splitter's `ValueError`s into compile errors. -/
def splitArgs (s : String) : Except CErr (List String) :=
  (split_tag_args_string s).mapError CErr.valueError

/-- Lift expression lex/parse errors into compile errors. -/
def parseExprArg (s : String) : Except CErr Expr :=
  (parse_expr_string s).mapError CErr.syntaxError

/-- `ParserState.finalize` plus the class assembly: the accumulated root
statements become the `root` method's body; with a base class the child's
`root` is dropped (`del self.functions['root']`) and a `pass` placeholder
keeps the class body non-empty.  The generated child class is appended
after the parent classes of the module body (the source appends it at the
first `doc` reduction, which for an `extends`-first document places it
after the parent's classes as well). -/
def finalizeModule (st : PState) (rootStmts : List Stmt) : List Klass :=
  let rootFunc := build_function rootStmts
  let funcs := st.functions.map (fun nf => if nf.1 = "root" then ("root", rootFunc) else nf)
  match st.baseLevel with
  | some b =>
      st.moduleBody ++
        [{ level := st.level, base := some b,
           funcs := funcs.filter (fun nf => nf.1 ≠ "root") }]
  | none => st.moduleBody ++ [{ level := st.level, base := none, funcs := funcs }]

mutual

/-- The semantic action of one non-`extends` production: `CONTENT` yields
its text, `var` yields `auto_escape(expr)`, a comment yields an empty
string (kept or dropped by the position-sensitive `doc`/`inner` rules),
`if`/`for` build native control flow, `block` registers a new generated
method and replaces itself with a `yield from` delegation.  A top-level
`extends` is handled by `compileDocAux`; the grammar also reaches
`extends` through `inner : tag`, which no claim exercises, so that path
is reported as out of scope rather than modelled.  All compile functions
thread one fuel argument, decremented on every call, standing in for
Python's recursion guard along `extends` chains. -/
def compileNode : Nat → PState → Node → Except CErr (PState × Stmt)
  | 0, _, _ => .error .recursionLimit
  | fuel + 1, st, node =>
    match node with
    | .content s => .ok (st, build_yield (.str s))
    | .var src => do
        let e ← parseExprArg src
        .ok (st, build_yield (.escape e))
    | .comment _ => .ok (st, build_yield (.str ""))
    | .ifTag cond body orelse => do
        let test ← parseExprArg cond
        let (st1, bstmts) ← compileBody fuel st body
        let (st2, ostmts) ←
          match orelse with
          | none => pure (st1, ([] : List Stmt))
          | some ns => compileBody fuel st1 ns
        .ok (st2, .ifS test bstmts ostmts)
    | .forTag args body orelse => do
        let parts ← splitArgs args
        match parts with
        | [target, inKw, var] =>
            if inKw ≠ "in" then
              .error (.valueError "\"in\" expected in for loop arguments")
            else do
              let iter ← parseExprArg var
              let (st1, bstmts) ← compileBody fuel st body
              let (st2, ostmts) ←
                match orelse with
                | none => pure (st1, ([] : List Stmt))
                | some ns => compileBody fuel st1 ns
              .ok (st2, .forS target iter bstmts ostmts)
        | _ => .error (.valueError "for tag arguments do not unpack to 3 values")
    | .blockTag args body => do
        let parts ← splitArgs args
        match parts with
        | [name] => do
            let (st1, bstmts) ← compileBody fuel st body
            let func := build_function bstmts
            let st2 ← st1.add_function name func
            .ok (st2, build_yield_from name)
        | _ => .error (.valueError "block tag arguments do not unpack to 1 value")
    | .extendsTag _ => .error .nestedExtends

/-- The `inner` production: at least one element; the first element's
value is always kept (`inner : comment` wraps the comment's empty yield),
later comments are dropped (`inner : inner comment`). -/
def compileBody : Nat → PState → List Node → Except CErr (PState × List Stmt)
  | 0, _, _ => .error .recursionLimit
  | fuel + 1, st, ns =>
    match ns with
    | [] => .error (.syntaxError "empty inner production")
    | n :: rest => do
        let (st1, s1) ← compileNode fuel st n
        compileBodyGo fuel st1 [s1] rest

def compileBodyGo : Nat → PState → List Stmt → List Node → Except CErr (PState × List Stmt)
  | 0, _, _, _ => .error .recursionLimit
  | fuel + 1, st, acc, ns =>
    match ns with
    | [] => .ok (st, acc)
    | .comment _ :: rest => compileBodyGo fuel st acc rest
    | n :: rest => do
        let (st1, s) ← compileNode fuel st n
        compileBodyGo fuel st1 (acc ++ [s]) rest

/-- The `doc` production's fold: like `compileBody` (first element kept,
later comments dropped), plus the `extends` action: split the payload to
one filename, load and compile the parent at `level + 1`, replace the
module body with the parent's classes and set the base class; the action
itself contributes an `ast.Pass()`.  The loader stands for
`open(filename).read()` followed by the structural lexer, handing over
the parent's parse trees; the source has no cycle detection — Python's
recursion limit, i.e. the fuel, is the actual guard. -/
def compileDocAux (loader : String → Option (List Node)) :
    Nat → Bool → PState → List Stmt → List Node → Except CErr (PState × List Stmt)
  | 0, _, _, _, _ => .error .recursionLimit
  | fuel + 1, first, st, acc, ns =>
    match ns with
    | [] => .ok (st, acc)
    | .comment _ :: rest =>
        if first then
          compileDocAux loader fuel false st (acc ++ [build_yield (.str "")]) rest
        else compileDocAux loader fuel false st acc rest
    | .extendsTag args :: rest => do
        let parts ← splitArgs args
        match parts with
        | [filename] =>
            match loader filename with
            | none => .error (.ioError filename)
            | some parentNodes => do
                let superClasses ← compileDoc loader fuel (st.level + 1) parentNodes
                compileDocAux loader fuel false
                  { st with moduleBody := superClasses,
                            baseLevel := some (st.level + 1) }
                  (acc ++ [Stmt.passS]) rest
        | _ => .error (.valueError "extends tag arguments do not unpack to 1 value")
    | n :: rest => do
        let (st1, s) ← compileNode fuel st n
        compileDocAux loader fuel false st1 (acc ++ [s]) rest

/-- Compile one document: `build_class`, fold the `doc` elements into the
root body and the block map, finalize into the module's class list. -/
def compileDoc (loader : String → Option (List Node)) :
    Nat → Nat → List Node → Except CErr (List Klass)
  | 0, _, _ => .error .recursionLimit
  | fuel + 1, level, ns =>
    match ns with
    | [] => .error (.syntaxError "empty document")
    | _ => do
        let (st, rootStmts) ← compileDocAux loader fuel true (build_class level) [] ns
        .ok (finalizeModule st rootStmts)

end

/-! ## Structural lexer front-end

The structural lexer (`rattle/lexer.py`, module not under `src/`) splits
the raw template at the delimiter pairs; the tokens below are its
structural kinds.  Tag regions are carried as one raw token here — the
claims exercise tagged templates at the parse-tree level (`Node`), where
the grammar productions map one-to-one onto the constructors. -/

/-- Structural tokens: `CONTENT`, `VS`/`VE` (`{{`/`}}`), `CS`/`CE`
(`{#`/`#}`), and a raw tag region (`{% … %}`). -/
inductive SToken where
  | content (s : String)
  | vs | ve | cs | ce
  | tag (raw : String)
  deriving Repr, DecidableEq

/-- Scan for the two-character closing delimiter, returning the characters
before it and the characters after it. -/
def splitAtCloser (c1 c2 : Char) : List Char → Option (List Char × List Char)
  | [] => none
  | a :: rest =>
      match rest with
      | [] => none
      | b :: rest' =>
          if a = c1 ∧ b = c2 then some ([], rest')
          else
            match splitAtCloser c1 c2 rest with
            | none => none
            | some (pre, post) => some (a :: pre, post)

/-- Modelled from the spec: the structural lexer (`rattle/lexer.py` is not
under `src/`): scan for `\x7b\x7b`, `\x7b%`, `\x7b#`; everything outside
a delimiter pair is one `CONTENT` token, possibly empty; an unterminated
delimiter is a syntax error. -/
def lexStructuralAux (fuel : Nat) (acc : List Char) (csr : List Char) :
    Except CErr (List SToken) :=
  match fuel with
  | 0 => .error (.syntaxError "structural lexer fuel exhausted")
  | fuel + 1 =>
    match csr with
    | [] => .ok [.content (String.mk acc)]
    | c :: cs =>
      if c = '{' then
        match cs with
        | '{' :: rest =>
            (match splitAtCloser '}' '}' rest with
            | none => .error (.syntaxError "unterminated variable delimiter")
            | some (inner, post) =>
                (lexStructuralAux fuel [] post).map
                  (fun ts => .content (String.mk acc) :: .vs ::
                    .content (String.mk inner) :: .ve :: ts))
        | '%' :: rest =>
            (match splitAtCloser '%' '}' rest with
            | none => .error (.syntaxError "unterminated tag delimiter")
            | some (inner, post) =>
                (lexStructuralAux fuel [] post).map
                  (fun ts => .content (String.mk acc) ::
                    .tag (String.mk inner) :: ts))
        | '#' :: rest =>
            (match splitAtCloser '#' '}' rest with
            | none => .error (.syntaxError "unterminated comment delimiter")
            | some (inner, post) =>
                (lexStructuralAux fuel [] post).map
                  (fun ts => .content (String.mk acc) :: .cs ::
                    .content (String.mk inner) :: .ce :: ts))
        | _ => lexStructuralAux fuel (acc ++ [c]) cs
      else lexStructuralAux fuel (acc ++ [c]) cs

/-- Lex a template source into structural tokens. -/
def lexStructural (s : String) : Except CErr (List SToken) :=
  lexStructuralAux (s.length + 1) [] s.data

/-- Does the character list start with one of the three opening
delimiters? -/
def startsOpen : List Char → Bool
  | '{' :: c :: _ => c = '{' || c = '%' || c = '#'
  | _ => false

/-- No position of the character list starts an opening delimiter. -/
def noOpenDelims : List Char → Bool
  | [] => true
  | c :: rest => !startsOpen (c :: rest) && noOpenDelims rest

/-- The token-to-tree step for tag-free documents: `CONTENT`, variables
and comments map onto their `doc` productions.  Tagged documents are
embedded directly as `Node` trees (the grammar productions correspond
one-to-one to the constructors), so a tag token stops this front-end. -/
def nodesOfTagFree : List SToken → Option (List Node)
  | [] => some []
  | .content s :: rest => (nodesOfTagFree rest).map (Node.content s :: ·)
  | .vs :: .content e :: .ve :: rest => (nodesOfTagFree rest).map (Node.var e :: ·)
  | .cs :: .content c :: .ce :: rest => (nodesOfTagFree rest).map (Node.comment c :: ·)
  | _ => none

/-- Compile a raw template source through the modelled front-end (tag-free
documents only; see `nodesOfTagFree`). -/
def compile_source (loader : String → Option (List Node)) (fuel : Nat)
    (s : String) : Except CErr (List Klass) := do
  let toks ← lexStructural s
  match nodesOfTagFree toks with
  | none => .error (.syntaxError "tagged document: compiled from parse trees in this embedding")
  | some ns => compileDoc loader fuel 0 ns

/-! ## General lemmas about the monadic plumbing -/

theorem intercalate_single (s x : String) : String.intercalate s [x] = x := rfl

theorem exBindOk {ε α β : Type} (a : α) (f : α → Except ε β) :
    (Except.ok a >>= f : Except ε β) = f a := rfl

theorem exBindErr {ε α β : Type} (e : ε) (f : α → Except ε β) :
    (Except.error e >>= f : Except ε β) = .error e := rfl

theorem exMapErrOk {ε ε2 α : Type} (f : ε → ε2) (a : α) :
    Except.mapError f (Except.ok a) = .ok a := rfl

theorem exMapErrErr {ε ε2 α : Type} (f : ε → ε2) (e : ε) :
    (Except.mapError f (Except.error e) : Except ε2 α) = .error (f e) := rfl

/-! ## Claims -/

/-- C1: the spec claims the `{% empty %}`/`{% else %}` branch of a `for`
tag runs exactly when the iterable produced zero elements.  The code
lowers the branch to the `orelse` of a native Python `for` statement,
whose else suite runs whenever the loop finishes without `break` — the
generated bodies contain no `break`, so it runs after every loop.  For
`{% for i in items %}x{% empty %}none{% endfor %}` with `items = [1]` the
render yields the fragments `""`, `"x"` and then also `"none"`; with
`items = []` it yields `""`, `"none"` (the direction the claim gets
right). -/
theorem for_empty_branch_runs_even_when_nonempty :
    (compileDoc (fun _ => none) 32 0
        [.forTag "i in items" [.content "x"] (some [.content "none"])]).toOption.map
        (fun cls => render 32 cls [] (fun _ => "") [("items", .list [.int 1])]) =
      some (.ok ([("items", .list [.int 1]), ("i", .int 1)], ["", "x", "none"])) ∧
    (compileDoc (fun _ => none) 32 0
        [.forTag "i in items" [.content "x"] (some [.content "none"])]).toOption.map
        (fun cls => render 32 cls [] (fun _ => "") [("items", .list [])]) =
      some (.ok ([("items", .list [])], ["", "none"])) :=
  ⟨rfl, rfl⟩

/-- C2, counterexample: the claim says the backslash escape character is
dropped from the splitter's output, so that splitting `a\ b` yields the
argument `a b`.  It does not: the loop appends the backslash along with
the escaped character (`current.append('\\')`). -/
theorem split_escape_not_dropped_counterexample :
    split_tag_args_string "a\\ b" ≠ .ok ["a b"] ∧
    split_tag_args_string "a\\ b" = .ok ["a\\ b"] := by
  refine ⟨?_, by decide⟩
  decide

/-- C2, amended: a backslash escapes the immediately following character —
the character is copied through verbatim into the current argument (in
particular an escaped space does not split) — but the backslash itself is
retained in the output as well: splitting `a\ b` yields the single
argument `a\ b`. -/
theorem split_escape_keeps_backslash :
    (∀ (s : String) (st : SplitSt) (c : Char), st.escaped = true →
      splitStep s st c =
        .ok { st with escaped := false, cur := st.cur ++ ['\\', c] }) ∧
    split_tag_args_string "a\\ b" = .ok ["a\\ b"] :=
  ⟨fun s st c h => by simp [splitStep, h], by decide⟩

/-- C2, witness for the amended claim's hypothesis: the escaped-state step
on a concrete state. -/
theorem split_escape_keeps_backslash_witness :
    splitStep "a\\ b" { SplitSt.init with escaped := true } ' ' =
      .ok { SplitSt.init with escaped := false, cur := ['\\', ' '] } :=
  split_escape_keeps_backslash.1 "a\\ b" { SplitSt.init with escaped := true } ' ' rfl

/-! C3 setup: statements without `for` loops, and a proof that executing
them can only read the context. -/

mutual

/-- No `for` statement occurs in the statement (the only generated
statement whose execution assigns into the context). -/
def Stmt.forFree : Stmt → Bool
  | .yieldE _ => true
  | .yieldFrom _ => true
  | .ifS _ body orelse => Stmt.forFreeAll body && Stmt.forFreeAll orelse
  | .forS _ _ _ _ => false
  | .passS => true

def Stmt.forFreeAll : List Stmt → Bool
  | [] => true
  | s :: ss => Stmt.forFree s && Stmt.forFreeAll ss

end

/-- Every method reachable in the render environment is `for`-free. -/
def forFreeEnv (env : REnv) : Prop :=
  (∀ nf ∈ env.selfK.funcs, Stmt.forFreeAll nf.2 = true) ∧
  (∀ k ∈ env.classes, ∀ nf ∈ k.funcs, Stmt.forFreeAll nf.2 = true)

theorem lookup_mem {β : Type} (a : String) (b : β) :
    ∀ (l : List (String × β)), l.lookup a = some b → (a, b) ∈ l := by
  intro l
  induction l with
  | nil => intro h; simp [List.lookup] at h
  | cons hd tl ih =>
      intro h
      match hd with
      | (k, v) =>
        simp [List.lookup] at h
        by_cases hk : a = k
        · subst hk
          simp at h
          simp [h]
        · have hb : (a == k) = false := by simp [hk]
          rw [hb] at h
          simp at h
          right
          exact ih h

theorem resolveMethod_forFree (env : REnv) (henv : forFreeEnv env) :
    ∀ (fuel : Nat) (k : Klass) (name : String) (f : Func),
      (∀ nf ∈ k.funcs, Stmt.forFreeAll nf.2 = true) →
      resolveMethod env.classes fuel k name = some f → Stmt.forFreeAll f = true := by
  intro fuel
  induction fuel with
  | zero => intro k name f _ h; simp [resolveMethod] at h
  | succ n ih =>
      intro k name f hk h
      simp only [resolveMethod] at h
      cases hl : k.funcs.lookup name with
      | some f0 =>
          rw [hl] at h
          simp at h
          subst h
          exact hk (name, f0) (lookup_mem name f0 k.funcs hl)
      | none =>
          rw [hl] at h
          cases hb : k.base with
          | none => rw [hb] at h; simp at h
          | some b =>
              rw [hb] at h
              simp at h
              cases hf : findKlass env.classes b with
              | none => rw [hf] at h; simp at h
              | some pk =>
                  rw [hf] at h
                  exact ih pk name f
                    (fun nf hnf => henv.2 pk (List.mem_of_find?_eq_some hf) nf hnf) h

/-- Executing `for`-free statements never changes the context: the only
write the generated code performs is the `for` target assignment. -/
theorem exec_forFree_preserves :
    ∀ (fuel : Nat) (env : REnv), forFreeEnv env →
      (∀ (ctx : Ctx) (s : Stmt) (res : Ctx × List String), Stmt.forFree s = true →
        execStmt env fuel ctx s = .ok res → res.1 = ctx) ∧
      (∀ (ctx : Ctx) (ss : List Stmt) (res : Ctx × List String), Stmt.forFreeAll ss = true →
        execStmts env fuel ctx ss = .ok res → res.1 = ctx) := by
  intro fuel
  induction fuel with
  | zero =>
      intro env henv
      constructor
      · intro ctx s res hff h; simp [execStmt] at h
      · intro ctx ss res hff h; simp [execStmts] at h
  | succ n ih =>
      intro env henv
      have ihS := fun (henv2 : forFreeEnv env) => (ih env henv2).1
      have ihL := fun (henv2 : forFreeEnv env) => (ih env henv2).2
      constructor
      · intro ctx s res hff h
        cases s with
        | yieldE e =>
            simp only [execStmt] at h
            cases hv : evalExpr env ctx e with
            | error er => rw [hv] at h; simp [exBindErr] at h
            | ok v =>
                rw [hv] at h
                simp [exBindOk] at h
                cases v <;> simp at h
                case str s' => rw [← h]
        | yieldFrom nm =>
            simp only [execStmt] at h
            cases hr : resolveMethod env.classes env.classes.length env.selfK nm with
            | none => rw [hr] at h; simp at h
            | some f =>
                rw [hr] at h
                have hf : Stmt.forFreeAll f = true :=
                  resolveMethod_forFree env henv _ _ _ _ henv.1 hr
                exact ihL henv ctx f res hf h
        | ifS test body orelse =>
            simp only [Stmt.forFree, Bool.and_eq_true] at hff
            simp only [execStmt] at h
            cases hv : evalExpr env ctx test with
            | error er => rw [hv] at h; simp [exBindErr] at h
            | ok v =>
                rw [hv] at h
                simp [exBindOk] at h
                cases htv : truthy v
                · rw [htv] at h
                  simp at h
                  exact ihL henv ctx orelse res hff.2 h
                · rw [htv] at h
                  simp at h
                  exact ihL henv ctx body res hff.1 h
        | forS t it body orelse => simp [Stmt.forFree] at hff
        | passS =>
            simp only [execStmt] at h
            simp at h
            rw [← h]
      · intro ctx ss res hff h
        cases ss with
        | nil =>
            simp only [execStmts] at h
            simp at h
            rw [← h]
        | cons s ss' =>
            simp only [Stmt.forFreeAll, Bool.and_eq_true] at hff
            simp only [execStmts] at h
            cases h1 : execStmt env n ctx s with
            | error er => rw [h1] at h; simp [exBindErr] at h
            | ok r1 =>
                rw [h1] at h
                obtain ⟨ctx1, frags⟩ := r1
                simp [exBindOk] at h
                cases h2 : execStmts env n ctx1 ss' with
                | error er => rw [h2] at h; simp [exBindErr] at h
                | ok r2 =>
                    rw [h2] at h
                    obtain ⟨ctx2, frags2⟩ := r2
                    simp [exBindOk] at h
                    have e1 : ctx1 = ctx := ihS henv ctx s (ctx1, frags) hff.1 h1
                    have e2 : ctx2 = ctx1 := ihL henv ctx1 ss' (ctx2, frags2) hff.2 h2
                    rw [← h]
                    simp [e2, e1]

/-- C3, counterexample: rendering `{% for i in items %}x{% endfor %}`
against the context `{items: [1]}` returns a context that has gained the
key `i` — the generated loop target is `context['i']` with store context,
so the caller-supplied mapping is mutated. -/
theorem for_loop_writes_context_counterexample :
    (compileDoc (fun _ => none) 32 0
        [.forTag "i in items" [.content "x"] none]).toOption.map
        (fun cls => render 32 cls [] (fun _ => "") [("items", .list [.int 1])]) =
      some (.ok ([("items", .list [.int 1]), ("i", .int 1)], ["", "x"])) ∧
    ([("items", Value.list [.int 1]), ("i", Value.int 1)] : Ctx) ≠
      [("items", Value.list [.int 1])] :=
  ⟨rfl, fun hc => by simpa using congrArg List.length hc⟩

/-- C3, amended: rendering only reads from the context, with one
exception — executing a `{% for NAME in EXPR %}` loop assigns each
iteration's element into the caller-supplied context under the key
`NAME` (and the binding persists after the loop).  Every execution that
touches no `for` statement returns the context unchanged; the `for`
example above adds exactly its loop key. -/
theorem render_reads_only_except_for_target :
    (∀ (fuel : Nat) (env : REnv) (ctx : Ctx) (ss : List Stmt)
        (res : Ctx × List String), forFreeEnv env → Stmt.forFreeAll ss = true →
        execStmts env fuel ctx ss = .ok res → res.1 = ctx) ∧
    (compileDoc (fun _ => none) 32 0
        [.forTag "i in items" [.content "x"] none]).toOption.map
        (fun cls => render 32 cls [] (fun _ => "") [("items", .list [.int 1])]) =
      some (.ok ([("items", .list [.int 1]), ("i", .int 1)], ["", "x"])) :=
  ⟨fun fuel env ctx ss res henv hss h =>
    (exec_forFree_preserves fuel env henv).2 ctx ss res hss h, rfl⟩

/-- C3, witness: the for-free part applied to one concrete execution. -/
theorem render_reads_only_except_for_target_witness :
    (([("a", Value.int 1)], ["hi"]) : Ctx × List String).1 = [("a", Value.int 1)] :=
  render_reads_only_except_for_target.1 2
    { classes := [], selfK := { level := 0, base := none, funcs := [] },
      filters := [], autoEscape := fun _ => "" }
    [("a", .int 1)] [.yieldE (.str "hi")] ([("a", .int 1)], ["hi"])
    ⟨by simp, by simp⟩ rfl rfl

/-! C4 setup: template inheritance.  The child template
`\x7b% extends "base" %\x7d JUNK \x7b% block body %\x7dchild\x7b% endblock %\x7d`
compiles, for any successfully compiled parent, to the parent's classes
plus one child class that derives from the parent class and carries only
the `body` override; resolution of every method name from the child goes
to the child's override for `body` and falls through to the parent class
for every other name (in particular `root`). -/

def c4Child : List Node :=
  [.extendsTag "\"base\"", .content "JUNK", .blockTag "body" [.content "child"]]

def c4ChildKlass : Klass :=
  { level := 0, base := some 1,
    funcs := [("body", [.yieldE (.str ""), .yieldE (.str "child")])] }

def c4Base : List Node :=
  [.content "A", .blockTag "body" [.content "B"], .content "C",
   .blockTag "other" [.content "D"]]

def c4BaseKlass : Klass :=
  { level := 1, base := none,
    funcs := [("root",
      [.yieldE (.str ""), .yieldE (.str "A"), .yieldFrom "body",
       .yieldE (.str "C"), .yieldFrom "other"]),
     ("body", [.yieldE (.str ""), .yieldE (.str "B")]),
     ("other", [.yieldE (.str ""), .yieldE (.str "D")])] }

def c4Loader : String → Option (List Node) :=
  fun p => if p = "base" then some c4Base else none

theorem compileNode_preserves :
    ∀ fuel : Nat,
      (∀ st n st1 s, compileNode fuel st n = .ok (st1, s) →
        st1.level = st.level ∧ st1.moduleBody = st.moduleBody) ∧
      (∀ st ns st1 ss, compileBody fuel st ns = .ok (st1, ss) →
        st1.level = st.level ∧ st1.moduleBody = st.moduleBody) ∧
      (∀ st acc ns st1 ss, compileBodyGo fuel st acc ns = .ok (st1, ss) →
        st1.level = st.level ∧ st1.moduleBody = st.moduleBody) := by
  intro fuel
  induction fuel with
  | zero =>
      refine ⟨?_, ?_, ?_⟩
      · intro st n st1 s h; simp [compileNode] at h
      · intro st ns st1 ss h; simp [compileBody] at h
      · intro st acc ns st1 ss h; simp [compileBodyGo] at h
  | succ m ih =>
      obtain ⟨ihN, ihB, ihG⟩ := ih
      refine ⟨?_, ?_, ?_⟩
      · intro st n st1 s h
        cases n with
        | content s0 =>
            simp only [compileNode] at h
            simp at h
            rw [← h.1]
            exact ⟨rfl, rfl⟩
        | var src =>
            simp only [compileNode] at h
            cases hp : parseExprArg src with
            | error er => rw [hp] at h; simp [exBindErr] at h
            | ok e =>
                rw [hp] at h
                simp [exBindOk] at h
                rw [← h.1]
                exact ⟨rfl, rfl⟩
        | comment s0 =>
            simp only [compileNode] at h
            simp at h
            rw [← h.1]
            exact ⟨rfl, rfl⟩
        | ifTag cond body orelse =>
            simp only [compileNode] at h
            cases hp : parseExprArg cond with
            | error er => rw [hp] at h; simp [exBindErr] at h
            | ok e =>
                rw [hp] at h
                simp only [exBindOk] at h
                cases hb : compileBody m st body with
                | error er => rw [hb] at h; simp [exBindErr] at h
                | ok r1 =>
                    rw [hb] at h
                    obtain ⟨stb, bstmts⟩ := r1
                    simp only [exBindOk] at h
                    have e1 := ihB st body stb bstmts hb
                    cases orelse with
                    | none =>
                        simp at h
                        rw [← h.1]
                        exact e1
                    | some ns2 =>
                        simp only at h
                        cases ho : compileBody m stb ns2 with
                        | error er => rw [ho] at h; simp [exBindErr] at h
                        | ok r2 =>
                            rw [ho] at h
                            obtain ⟨sto, ostmts⟩ := r2
                            simp [exBindOk] at h
                            have e2 := ihB stb ns2 sto ostmts ho
                            rw [← h.1]
                            exact ⟨e2.1.trans e1.1, e2.2.trans e1.2⟩
        | forTag args body orelse =>
            simp only [compileNode] at h
            cases hsp : splitArgs args with
            | error er => rw [hsp] at h; simp [exBindErr] at h
            | ok parts =>
                rw [hsp] at h
                simp only [exBindOk] at h
                match parts with
                | [] => simp at h
                | [a] => simp at h
                | [a, b] => simp at h
                | [target, inKw, var] =>
                    simp only at h
                    by_cases hin : inKw = "in"
                    · rw [if_neg (by simp [hin])] at h
                      cases hp : parseExprArg var with
                      | error er => rw [hp] at h; simp [exBindErr] at h
                      | ok e =>
                          rw [hp] at h
                          simp only [exBindOk] at h
                          cases hb : compileBody m st body with
                          | error er => rw [hb] at h; simp [exBindErr] at h
                          | ok r1 =>
                              rw [hb] at h
                              obtain ⟨stb, bstmts⟩ := r1
                              simp only [exBindOk] at h
                              have e1 := ihB st body stb bstmts hb
                              cases orelse with
                              | none =>
                                  simp at h
                                  rw [← h.1]
                                  exact e1
                              | some ns2 =>
                                  simp only at h
                                  cases ho : compileBody m stb ns2 with
                                  | error er => rw [ho] at h; simp [exBindErr] at h
                                  | ok r2 =>
                                      rw [ho] at h
                                      obtain ⟨sto, ostmts⟩ := r2
                                      simp [exBindOk] at h
                                      have e2 := ihB stb ns2 sto ostmts ho
                                      rw [← h.1]
                                      exact ⟨e2.1.trans e1.1, e2.2.trans e1.2⟩
                    · rw [if_pos (by simp [hin])] at h
                      simp at h
                | a :: b :: c :: d :: rest => simp at h
        | blockTag args body =>
            simp only [compileNode] at h
            cases hsp : splitArgs args with
            | error er => rw [hsp] at h; simp [exBindErr] at h
            | ok parts =>
                rw [hsp] at h
                simp only [exBindOk] at h
                match parts with
                | [] => simp at h
                | [name] =>
                    simp only at h
                    cases hb : compileBody m st body with
                    | error er => rw [hb] at h; simp [exBindErr] at h
                    | ok r1 =>
                        rw [hb] at h
                        obtain ⟨stb, bstmts⟩ := r1
                        simp only [exBindOk] at h
                        have e1 := ihB st body stb bstmts hb
                        unfold PState.add_function at h
                        by_cases hdup : (stb.functions.lookup name).isSome
                        · rw [if_pos hdup] at h; simp [exBindErr] at h
                        · rw [if_neg hdup] at h
                          simp [exBindOk] at h
                          rw [← h.1]
                          exact e1
                | a :: b :: rest => simp at h
        | extendsTag args =>
            simp only [compileNode] at h
            simp at h
      · intro st ns st1 ss h
        cases ns with
        | nil => simp [compileBody] at h
        | cons n rest =>
            simp only [compileBody] at h
            cases hn : compileNode m st n with
            | error er => rw [hn] at h; simp [exBindErr] at h
            | ok r1 =>
                rw [hn] at h
                obtain ⟨stn, s1⟩ := r1
                simp only [exBindOk] at h
                have e1 := ihN st n stn s1 hn
                have e2 := ihG stn [s1] rest st1 ss h
                exact ⟨e2.1.trans e1.1, e2.2.trans e1.2⟩
      · intro st acc ns st1 ss h
        cases ns with
        | nil =>
            simp only [compileBodyGo] at h
            simp at h
            rw [← h.1]
            exact ⟨rfl, rfl⟩
        | cons n rest =>
            cases n with
            | comment s0 =>
                simp only [compileBodyGo] at h
                exact ihG st acc rest st1 ss h
            | content s0 =>
                simp only [compileBodyGo] at h
                cases hn : compileNode m st (.content s0) with
                | error er => rw [hn] at h; simp [exBindErr] at h
                | ok r1 =>
                    rw [hn] at h
                    obtain ⟨stn, s1⟩ := r1
                    simp only [exBindOk] at h
                    have e1 := ihN st (.content s0) stn s1 hn
                    have e2 := ihG stn (acc ++ [s1]) rest st1 ss h
                    exact ⟨e2.1.trans e1.1, e2.2.trans e1.2⟩
            | var src =>
                simp only [compileBodyGo] at h
                cases hn : compileNode m st (.var src) with
                | error er => rw [hn] at h; simp [exBindErr] at h
                | ok r1 =>
                    rw [hn] at h
                    obtain ⟨stn, s1⟩ := r1
                    simp only [exBindOk] at h
                    have e1 := ihN st (.var src) stn s1 hn
                    have e2 := ihG stn (acc ++ [s1]) rest st1 ss h
                    exact ⟨e2.1.trans e1.1, e2.2.trans e1.2⟩
            | ifTag cond body orelse =>
                simp only [compileBodyGo] at h
                cases hn : compileNode m st (.ifTag cond body orelse) with
                | error er => rw [hn] at h; simp [exBindErr] at h
                | ok r1 =>
                    rw [hn] at h
                    obtain ⟨stn, s1⟩ := r1
                    simp only [exBindOk] at h
                    have e1 := ihN st (.ifTag cond body orelse) stn s1 hn
                    have e2 := ihG stn (acc ++ [s1]) rest st1 ss h
                    exact ⟨e2.1.trans e1.1, e2.2.trans e1.2⟩
            | forTag args body orelse =>
                simp only [compileBodyGo] at h
                cases hn : compileNode m st (.forTag args body orelse) with
                | error er => rw [hn] at h; simp [exBindErr] at h
                | ok r1 =>
                    rw [hn] at h
                    obtain ⟨stn, s1⟩ := r1
                    simp only [exBindOk] at h
                    have e1 := ihN st (.forTag args body orelse) stn s1 hn
                    have e2 := ihG stn (acc ++ [s1]) rest st1 ss h
                    exact ⟨e2.1.trans e1.1, e2.2.trans e1.2⟩
            | blockTag args body =>
                simp only [compileBodyGo] at h
                cases hn : compileNode m st (.blockTag args body) with
                | error er => rw [hn] at h; simp [exBindErr] at h
                | ok r1 =>
                    rw [hn] at h
                    obtain ⟨stn, s1⟩ := r1
                    simp only [exBindOk] at h
                    have e1 := ihN st (.blockTag args body) stn s1 hn
                    have e2 := ihG stn (acc ++ [s1]) rest st1 ss h
                    exact ⟨e2.1.trans e1.1, e2.2.trans e1.2⟩
            | extendsTag args =>
                simp only [compileBodyGo] at h
                cases hn : compileNode m st (.extendsTag args) with
                | error er => rw [hn] at h; simp [exBindErr] at h
                | ok r1 =>
                    rw [hn] at h
                    obtain ⟨stn, s1⟩ := r1
                    simp only [exBindOk] at h
                    have e1 := ihN st (.extendsTag args) stn s1 hn
                    have e2 := ihG stn (acc ++ [s1]) rest st1 ss h
                    exact ⟨e2.1.trans e1.1, e2.2.trans e1.2⟩

theorem compile_levels (loader : String → Option (List Node)) :
    ∀ fuel : Nat,
      (∀ first st acc ns st2 acc2,
        compileDocAux loader fuel first st acc ns = .ok (st2, acc2) →
        st2.level = st.level ∧
        ((∀ k ∈ st.moduleBody, st.level < k.level) →
          ∀ k ∈ st2.moduleBody, st.level < k.level)) ∧
      (∀ L ns cs, compileDoc loader fuel L ns = .ok cs →
        ∃ cs0 k0, cs = cs0 ++ [k0] ∧ k0.level = L ∧ ∀ k ∈ cs0, L < k.level) := by
  intro fuel
  induction fuel with
  | zero =>
      constructor
      · intro first st acc ns st2 acc2 h; simp [compileDocAux] at h
      · intro L ns cs h; simp [compileDoc] at h
  | succ m ih =>
      obtain ⟨ihA, ihD⟩ := ih
      constructor
      · intro first st acc ns st2 acc2 h
        cases ns with
        | nil =>
            simp only [compileDocAux] at h
            simp at h
            rw [← h.1]
            exact ⟨rfl, fun hp => hp⟩
        | cons n rest =>
            cases n with
            | comment s0 =>
                simp only [compileDocAux] at h
                cases first with
                | true =>
                    rw [if_pos rfl] at h
                    exact ihA false st _ rest st2 acc2 h
                | false =>
                    rw [if_neg (by simp)] at h
                    exact ihA false st acc rest st2 acc2 h
            | extendsTag args =>
                simp only [compileDocAux] at h
                cases hsp : splitArgs args with
                | error er => rw [hsp] at h; simp [exBindErr] at h
                | ok parts =>
                    rw [hsp] at h
                    simp only [exBindOk] at h
                    match parts with
                    | [] => simp at h
                    | [filename] =>
                        simp only at h
                        cases hld : loader filename with
                        | none => rw [hld] at h; simp at h
                        | some parentNodes =>
                            rw [hld] at h
                            simp only [Option.some.injEq] at h
                            cases hsc : compileDoc loader m (st.level + 1) parentNodes with
                            | error er => rw [hsc] at h; simp [exBindErr] at h
                            | ok superClasses =>
                                rw [hsc] at h
                                simp only [exBindOk] at h
                                obtain ⟨cs0, k0, hdec, hk0, hcs0⟩ := ihD (st.level + 1) parentNodes superClasses hsc
                                have hsup : ∀ k ∈ superClasses, st.level < k.level := by
                                  intro k hk
                                  rw [hdec] at hk
                                  rcases List.mem_append.mp hk with hk | hk
                                  · exact Nat.lt_trans (Nat.lt_succ_self _) (hcs0 k hk)
                                  · simp at hk
                                    rw [hk, hk0]
                                    exact Nat.lt_succ_self _
                                have := ihA false
                                  { st with moduleBody := superClasses,
                                            baseLevel := some (st.level + 1) }
                                  (acc ++ [Stmt.passS]) rest st2 acc2 h
                                refine ⟨this.1, fun _ => ?_⟩
                                exact this.2 hsup
                    | a :: b :: rest2 => simp at h
            | content s0 =>
                simp only [compileDocAux] at h
                cases hn : compileNode m st (.content s0) with
                | error er => rw [hn] at h; simp [exBindErr] at h
                | ok r1 =>
                    rw [hn] at h
                    obtain ⟨stn, s1⟩ := r1
                    simp only [exBindOk] at h
                    have e1 := (compileNode_preserves m).1 st _ stn s1 hn
                    have e2 := ihA false stn (acc ++ [s1]) rest st2 acc2 h
                    refine ⟨e2.1.trans e1.1, fun hp => ?_⟩
                    have : ∀ k ∈ stn.moduleBody, stn.level < k.level := by
                      rw [e1.1, e1.2]; exact hp
                    have h3 := e2.2 this
                    rw [e1.1] at h3
                    exact h3
            | var src =>
                simp only [compileDocAux] at h
                cases hn : compileNode m st (.var src) with
                | error er => rw [hn] at h; simp [exBindErr] at h
                | ok r1 =>
                    rw [hn] at h
                    obtain ⟨stn, s1⟩ := r1
                    simp only [exBindOk] at h
                    have e1 := (compileNode_preserves m).1 st _ stn s1 hn
                    have e2 := ihA false stn (acc ++ [s1]) rest st2 acc2 h
                    refine ⟨e2.1.trans e1.1, fun hp => ?_⟩
                    have : ∀ k ∈ stn.moduleBody, stn.level < k.level := by
                      rw [e1.1, e1.2]; exact hp
                    have h3 := e2.2 this
                    rw [e1.1] at h3
                    exact h3
            | ifTag cond body orelse =>
                simp only [compileDocAux] at h
                cases hn : compileNode m st (.ifTag cond body orelse) with
                | error er => rw [hn] at h; simp [exBindErr] at h
                | ok r1 =>
                    rw [hn] at h
                    obtain ⟨stn, s1⟩ := r1
                    simp only [exBindOk] at h
                    have e1 := (compileNode_preserves m).1 st _ stn s1 hn
                    have e2 := ihA false stn (acc ++ [s1]) rest st2 acc2 h
                    refine ⟨e2.1.trans e1.1, fun hp => ?_⟩
                    have : ∀ k ∈ stn.moduleBody, stn.level < k.level := by
                      rw [e1.1, e1.2]; exact hp
                    have h3 := e2.2 this
                    rw [e1.1] at h3
                    exact h3
            | forTag args body orelse =>
                simp only [compileDocAux] at h
                cases hn : compileNode m st (.forTag args body orelse) with
                | error er => rw [hn] at h; simp [exBindErr] at h
                | ok r1 =>
                    rw [hn] at h
                    obtain ⟨stn, s1⟩ := r1
                    simp only [exBindOk] at h
                    have e1 := (compileNode_preserves m).1 st _ stn s1 hn
                    have e2 := ihA false stn (acc ++ [s1]) rest st2 acc2 h
                    refine ⟨e2.1.trans e1.1, fun hp => ?_⟩
                    have : ∀ k ∈ stn.moduleBody, stn.level < k.level := by
                      rw [e1.1, e1.2]; exact hp
                    have h3 := e2.2 this
                    rw [e1.1] at h3
                    exact h3
            | blockTag args body =>
                simp only [compileDocAux] at h
                cases hn : compileNode m st (.blockTag args body) with
                | error er => rw [hn] at h; simp [exBindErr] at h
                | ok r1 =>
                    rw [hn] at h
                    obtain ⟨stn, s1⟩ := r1
                    simp only [exBindOk] at h
                    have e1 := (compileNode_preserves m).1 st _ stn s1 hn
                    have e2 := ihA false stn (acc ++ [s1]) rest st2 acc2 h
                    refine ⟨e2.1.trans e1.1, fun hp => ?_⟩
                    have : ∀ k ∈ stn.moduleBody, stn.level < k.level := by
                      rw [e1.1, e1.2]; exact hp
                    have h3 := e2.2 this
                    rw [e1.1] at h3
                    exact h3
      · intro L ns cs h
        cases ns with
        | nil => simp [compileDoc] at h
        | cons n rest =>
            simp only [compileDoc] at h
            cases ha : compileDocAux loader m true (build_class L) [] (n :: rest) with
            | error er => rw [ha] at h; simp [exBindErr] at h
            | ok r1 =>
                rw [ha] at h
                obtain ⟨stf, roots⟩ := r1
                simp only [exBindOk] at h
                have e1 := ihA true (build_class L) [] (n :: rest) stf roots ha
                have hlev : stf.level = L := e1.1
                have hmod : ∀ k ∈ stf.moduleBody, L < k.level := by
                  exact e1.2 (by intro k hk; simp [build_class] at hk)
                simp only [finalizeModule] at h
                cases hbl : stf.baseLevel with
                | some b =>
                    rw [hbl] at h
                    simp at h
                    refine ⟨stf.moduleBody, _, h.symm, ?_, hmod⟩
                    simpa using hlev
                | none =>
                    rw [hbl] at h
                    simp at h
                    refine ⟨stf.moduleBody, _, h.symm, ?_, hmod⟩
                    simpa using hlev

set_option maxHeartbeats 1000000 in
/-- C4: for every parent template that compiles (at level 1) and is served
by the loader under `"base"`, compiling the child produces the parent's
classes followed by the child class `c4ChildKlass` — whose methods are
exactly the child's block override, with the child's top-level `JUNK`
content in no class (the child's root was discarded).  Method resolution
from the child class returns the child's `body` override and delegates
every other name (`root` included) to the parent's last class.  On the
concrete base template, the inherited render interleaves the parent's
root with the overridden `body` and the untouched `other` block, for
every context and escape collaborator, and the child's `JUNK` never
appears. -/
theorem extends_block_override (fuel : Nat) (loader : String → Option (List Node))
    (p0 : Node) (prest : List Node) (pcs : List Klass)
    (hld : loader "base" = some (p0 :: prest))
    (hP : compileDoc loader (fuel + 5) 1 (p0 :: prest) = .ok pcs) :
    compileDoc loader (fuel + 7) 0 c4Child = .ok (pcs ++ [c4ChildKlass]) ∧
    (∃ ps0 pk, pcs = ps0 ++ [pk] ∧ pk.level = 1 ∧
      ∀ (n : Nat) (name : String),
        resolveMethod (pcs ++ [c4ChildKlass]) (n + 1) c4ChildKlass name =
          (if name = "body" then some [.yieldE (.str ""), .yieldE (.str "child")]
           else resolveMethod (pcs ++ [c4ChildKlass]) n pk name)) ∧
    compileDoc c4Loader 32 0 c4Child = .ok [c4BaseKlass, c4ChildKlass] ∧
    (∀ (esc : Value → String) (ctx : Ctx),
      render 32 [c4BaseKlass, c4ChildKlass] [] esc ctx =
        .ok (ctx, ["", "A", "", "child", "C", "", "D"])) := by
  refine ⟨?_, ?_, rfl, fun esc ctx => rfl⟩
  · have hsplit : splitArgs "\"base\"" = .ok ["base"] := rfl
    have hsplitB : splitArgs "body" = .ok ["body"] := rfl
    conv_lhs => rw [compileDoc.eq_def]
    simp only [c4Child, compileDocAux, compileNode, compileBody,
      compileBodyGo, hsplit, hsplitB, exBindOk, exBindErr, hld,
      PState.add_function, build_class, List.lookup, finalizeModule,
      build_function, build_yield, build_yield_from, c4ChildKlass, Nat.zero_add]
    rw [hP]
    simp [exBindOk, finalizeModule]
  · obtain ⟨ps0, pk, hdec, hpk, hps0⟩ :=
      (compile_levels loader (fuel + 5)).2 1 (p0 :: prest) pcs hP
    refine ⟨ps0, pk, hdec, hpk, ?_⟩
    intro n name
    by_cases hb : name = "body"
    · subst hb
      simp [resolveMethod, c4ChildKlass, List.lookup]
    · have hnb : (name == "body") = false := by simp [hb]
      have hlook : c4ChildKlass.funcs.lookup name = none := by
        simp [c4ChildKlass, List.lookup, hnb]
      have hbase : c4ChildKlass.base = some 1 := rfl
      rw [if_neg hb]
      have hfind : findKlass (pcs ++ [c4ChildKlass]) 1 = some pk := by
        unfold findKlass
        rw [hdec]
        rw [List.append_assoc]
        rw [List.find?_append]
        have h0 : ps0.find? (fun k => k.level == 1) = none := by
          apply List.find?_eq_none.mpr
          intro k hk
          have := hps0 k hk
          simp
          omega
        rw [h0]
        simp [List.find?, hpk]
      simp only [resolveMethod, hlook, hbase, hfind]

set_option maxHeartbeats 1000000 in
/-- C4, witness: the hypotheses discharged with the concrete base
template. -/
theorem extends_block_override_witness :
    compileDoc c4Loader 10 0 c4Child = .ok ([c4BaseKlass] ++ [c4ChildKlass]) :=
  (extends_block_override 3 c4Loader (.content "A")
    [.blockTag "body" [.content "B"], .content "C",
     .blockTag "other" [.content "D"]]
    [c4BaseKlass] rfl rfl).1

/-- C5: filters chain left to right — `x | f | g` parses to `g(f(x))`
(each filter call threads its left operand as first positional argument
via `expr_filter`), `x | f: 1` parses to `f(x, 1)`, and evaluating the
chained call applies `F` to the context value of `x` and then `G` to the
result. -/
theorem filter_chaining (x f g : String) :
    fp_parse [.name x, .pipe, .name f, .pipe, .name g] =
      .ok (build_call (.filterRef [g])
        [build_call (.filterRef [f]) [Expr.contextLookup x] []] []) ∧
    fp_parse [.name x, .pipe, .name f, .colon, .number "1"] =
      .ok (build_call (.filterRef [f]) [Expr.contextLookup x, Expr.num 1] []) ∧
    ∀ (env : REnv) (ctx : Ctx) (F G : FilterFn) (vx : Value),
      env.filters.lookup f = some F → env.filters.lookup g = some G →
      ctx.lookup x = some vx →
      evalExpr env ctx (build_call (.filterRef [g])
          [build_call (.filterRef [f]) [Expr.contextLookup x] []] []) =
        (F [vx] [] >>= fun v => G [v] []) := by
  refine ⟨rfl, rfl, ?_⟩
  intro env ctx F G vx hf hg hx
  simp only [build_call, evalExpr, evalExprList, evalKwargList, intercalate_single,
    hf, hg, hx, exBindOk]
  cases F [vx] [] <;> rfl

/-- C5, witness: a concrete chained filter evaluation. -/
theorem filter_chaining_witness :
    evalExpr
        { classes := [], selfK := { level := 0, base := none, funcs := [] },
          filters := [("f", fun args _ => .ok (.list args)),
                      ("g", fun args _ => .ok (.list args))],
          autoEscape := fun _ => "" }
        [("x", .int 5)]
        (build_call (.filterRef ["g"])
          [build_call (.filterRef ["f"]) [Expr.contextLookup "x"] []] []) =
      ((fun (args : List Value) (_ : List (String × Value)) =>
          (.ok (.list args) : Except RErr Value)) [Value.int 5] [] >>= fun v =>
        (fun (args : List Value) (_ : List (String × Value)) =>
          (.ok (.list args) : Except RErr Value)) [v] []) :=
  (filter_chaining "x" "f" "g").2.2
    { classes := [], selfK := { level := 0, base := none, funcs := [] },
      filters := [("f", fun args _ => .ok (.list args)),
                  ("g", fun args _ => .ok (.list args))],
      autoEscape := fun _ => "" }
    [("x", .int 5)] _ _ (.int 5) rfl rfl rfl

/-- C6: two `{% block nm %}` definitions at the same inheritance level
make compilation fail with `DuplicateBlockError` naming `nm` (the second
`add_function` call finds the name already registered; a block named
`root` collides with the pre-registered root even earlier). -/
theorem duplicate_block_fails (loader : String → Option (List Node))
    (nm s1 s2 : String) (h : split_tag_args_string nm = .ok [nm]) :
    compileDoc loader 32 0
        [.blockTag nm [.content s1], .blockTag nm [.content s2]] =
      .error (.duplicateBlock nm) := by
  by_cases hr : nm = "root"
  · subst hr
    simp [compileDoc, compileDocAux, compileNode, compileBody, compileBodyGo,
      splitArgs, h, PState.add_function, build_class, List.lookup, exBindOk,
      exBindErr, exMapErrOk, exMapErrErr, build_function, build_yield,
      build_yield_from, finalizeModule]
  · have hb : (nm == "root") = false := by simp [hr]
    have hb2 : ("root" == nm) = false := by
      simp [beq_iff_eq]
      intro hc
      exact hr hc.symm
    simp [compileDoc, compileDocAux, compileNode, compileBody, compileBodyGo,
      splitArgs, h, PState.add_function, build_class, List.lookup, hb, hb2,
      exBindOk, exBindErr, exMapErrOk, exMapErrErr, build_function, build_yield,
      build_yield_from, finalizeModule]

/-- C6, witness: the duplicate-block failure on a concrete template with
block name `x`. -/
theorem duplicate_block_fails_witness :
    compileDoc (fun _ => none) 32 0
        [.blockTag "x" [.content "a"], .blockTag "x" [.content "b"]] =
      .error (.duplicateBlock "x") :=
  duplicate_block_fails (fun _ => none) "x" "a" "b" (by decide)

/-- C7: multiplicative operators bind tighter than additive ones and
parentheses override precedence: `{{ 1 + 2 * 3 }}` renders the escaped
value 7 and `{{ (1 + 2) * 3 }}` renders the escaped value 9, for every
context and escape collaborator. -/
theorem operator_precedence (loader : String → Option (List Node))
    (esc : Value → String) (ctx : Ctx) :
    (compileDoc loader 32 0 [.var "1 + 2 * 3"]).toOption.map
        (fun cls => render 32 cls [] esc ctx) =
      some (.ok (ctx, ["", esc (Value.int 7)])) ∧
    (compileDoc loader 32 0 [.var "(1 + 2) * 3"]).toOption.map
        (fun cls => render 32 cls [] esc ctx) =
      some (.ok (ctx, ["", esc (Value.int 9)])) :=
  ⟨rfl, rfl⟩

/-- C8: the tag argument splitter splits on whitespace only outside
quotes and balanced parentheses and strips quotes only when they wrap the
whole argument: `x in "a b"` yields `["x", "in", "a b"]`; `f(a, b)` is
one argument whether quoted or bare (the comma-space inside the
parentheses does not split); a quoted section that does not wrap the
whole argument is kept verbatim, quotes included. -/
theorem split_quotes_parens :
    split_tag_args_string "x in \"a b\"" = .ok ["x", "in", "a b"] ∧
    split_tag_args_string "\"f(a, b)\" y" = .ok ["f(a, b)", "y"] ∧
    split_tag_args_string "f(a, b) y" = .ok ["f(a, b)", "y"] ∧
    split_tag_args_string "a\"b c\"d" = .ok ["a\"b c\"d"] :=
  ⟨by decide, by decide, by decide, by decide⟩

/-! C9 setup: a delimiter-free source lexes to one `CONTENT` token. -/

theorem string_mk_data (s : String) : String.mk s.data = s := rfl

theorem lexAux_noOpen : ∀ (cs : List Char) (fuel : Nat) (acc : List Char),
    cs.length < fuel → noOpenDelims cs = true →
    lexStructuralAux fuel acc cs = .ok [.content (String.mk (acc ++ cs))] := by
  intro cs
  induction cs with
  | nil =>
      intro fuel acc hf _
      match fuel, hf with
      | fuel + 1, _ => simp [lexStructuralAux]
  | cons c cs' ih =>
      intro fuel acc hf hno
      simp only [noOpenDelims, Bool.and_eq_true] at hno
      obtain ⟨hso, hno'⟩ := hno
      match fuel, hf with
      | fuel + 1, hf =>
        have hf' : cs'.length < fuel := Nat.lt_of_succ_lt_succ hf
        simp only [lexStructuralAux]
        by_cases hc : c = '{'
        · subst hc
          rw [if_pos rfl]
          cases cs' with
          | nil =>
              obtain ⟨m, rfl⟩ : ∃ m, fuel = m + 1 := ⟨fuel - 1, by omega⟩
              simp [lexStructuralAux]
          | cons d rest =>
              have h1 : d ≠ '{' := by intro he; subst he; simp [startsOpen] at hso
              have h2 : d ≠ '%' := by intro he; subst he; simp [startsOpen] at hso
              have h3 : d ≠ '#' := by intro he; subst he; simp [startsOpen] at hso
              split
              · rename_i cs2 rest2 heq
                injection heq with hd hrest
                exact absurd hd h1
              · rename_i cs2 rest2 heq
                injection heq with hd hrest
                exact absurd hd h2
              · rename_i cs2 rest2 heq
                injection heq with hd hrest
                exact absurd hd h3
              · rw [ih fuel (acc ++ ['{']) hf' hno']
                simp
        · rw [if_neg hc]
          rw [ih fuel (acc ++ [c]) hf' hno']
          simp

/-- C9: a template source containing none of the opening delimiters
`\x7b\x7b`, `\x7b%`, `\x7b#` compiles to a root that yields the mandatory
empty leading fragment followed by the literal source, and the joined
render output equals the source unchanged, for every loader, filter
table, escape collaborator and context. -/
theorem tagfree_source_renders_literally (loader : String → Option (List Node))
    (fuel : Nat) (filters : List (String × FilterFn)) (esc : Value → String)
    (ctx : Ctx) (s : String) (h : noOpenDelims s.data = true) :
    (compile_source loader (fuel + 3) s).toOption.map
      (fun cls => renderString 32 cls filters esc ctx) = some (.ok s) := by
  have hlen : s.data.length < s.length + 1 := Nat.lt_succ_self s.data.length
  have hlex : lexStructural s = .ok [.content s] := by
    unfold lexStructural
    rw [lexAux_noOpen s.data (s.length + 1) [] hlen h]
    simp [string_mk_data]
  unfold compile_source
  rw [hlex]
  rfl

/-- C9, witness: a concrete delimiter-free source (stray closing
delimiters included) renders to itself. -/
theorem tagfree_source_renders_literally_witness :
    (compile_source (fun _ => none) 3 "hello \x7d\x7d %\x7d world").toOption.map
      (fun cls => renderString 32 cls [] (fun _ => "") []) =
      some (.ok "hello \x7d\x7d %\x7d world") :=
  tagfree_source_renders_literally (fun _ => none) 0 [] (fun _ => "") []
    "hello \x7d\x7d %\x7d world" (by decide)

/-- C10: the implicit root render procedure is pre-registered under the
name `root` in the same namespace as user blocks (`build_class` calls
`add_function('root', ...)`), so a template defining `{% block root %}`
fails with a duplicate-block error naming `root`, with or without
preceding content. -/
theorem block_named_root_collides (loader : String → Option (List Node))
    (pre s : String) :
    compileDoc loader 32 0 [.content pre, .blockTag "root" [.content s]] =
      .error (.duplicateBlock "root") ∧
    compileDoc loader 32 0 [.blockTag "root" [.content s]] =
      .error (.duplicateBlock "root") := by
  have hroot : split_tag_args_string "root" = .ok ["root"] := rfl
  constructor <;>
    simp [compileDoc, compileDocAux, compileNode, compileBody, compileBodyGo,
      splitArgs, hroot, PState.add_function, build_class, List.lookup, exBindOk,
      exBindErr, exMapErrOk, exMapErrErr, build_function, build_yield,
      build_yield_from, finalizeModule]

end Rattle
